/-
  Verification of the YugaByte RPC reactor slice:
  `src/yb/rpc/yb_rpc.cc` and `src/yb/rpc/reactor.h`.

  The C++ code is shallowly embedded: byte buffers are `List Nat`
  (each element a byte value) and machine integers are `Nat`, with an
  explicit `% 2^32` wherever the source computes in a 32-bit variable
  (the `uint32_t` sidecar-offset accumulator); the remaining quantities
  are sizes and ids carried in 64-bit `size_t`/`int64_t` arithmetic that
  cannot overflow here.  Fallible operations return a result paired with
  an `Option` error kind, and the in-out `*consumed` parameter of
  `ProcessCalls` is modelled as an explicit cell value that the function
  returns, updated on exactly the paths on which the source stores to
  it.
-/

import Mathlib

namespace YbRpc

/-- Error kinds of the `Status` values produced by this slice of the code
(`STATUS(NetworkError, ...)`, `STATUS(Corruption, ...)`, ...).  Only the
kind matters for the properties below, not the message text. -/
inductive RpcErrorKind where
  | networkError
  | corruption
  | timedOut
  | serviceUnavailable
  | remoteError
  | ioError
  deriving DecidableEq, Repr

/-- `kMsgLengthPrefixLength`: the frame length field is a 4-byte
big-endian unsigned integer. -/
def kMsgLengthPrefixLength : Nat := 4

/-- Default value of the `rpc_max_message_size` flag: 8 MiB
(`DEFINE_int32(rpc_max_message_size, 8_MB, ...)`). -/
def FLAGS_rpc_max_message_size : Nat := 8 * 1024 * 1024

/-- `NetworkByteOrder::Load32`: read a 32-bit big-endian value from the
first four bytes of the buffer.  Only ever used when at least four bytes
are present, so the default value for missing bytes is irrelevant. -/
def load32 (buf : List Nat) : Nat :=
  buf.getD 0 0 * 16777216 + buf.getD 1 0 * 65536 + buf.getD 2 0 * 256 + buf.getD 3 0

/-- Big-endian encoding of a 32-bit length value, as written by the peer
into the 4-byte frame length field. -/
def encodeLen32 (n : Nat) : List Nat :=
  [n / 16777216 % 256, n / 65536 % 256, n / 256 % 256, n % 256]

/-- A wire frame: 4-byte big-endian length field holding the payload
length, followed by the payload bytes. -/
def encodeFrame (payload : List Nat) : List Nat :=
  encodeLen32 payload.length ++ payload

/-- Concatenation of wire frames, one per payload. -/
def encodeFrames : List (List Nat) → List Nat
  | [] => []
  | p :: ps => encodeFrame p ++ encodeFrames ps

/-- Result of `YBConnectionContext::ProcessCalls`: the connection state
after any `HandleCall` side effects, the value of the caller's
`*consumed` cell after the call (written only on the OK path), and the
error kind of the returned `Status` (`none` = OK). -/
structure PCResult (σ : Type) where
  state : σ
  consumed : Nat
  error : Option RpcErrorKind
  deriving DecidableEq, Repr

/-- The loop of `YBConnectionContext::ProcessCalls`.  `handle` embeds
`HandleCall` (it mutates connection state `σ` and may fail), `done` is
`pos - slice.data()`, and `consumedCell` is the current contents of the
caller's `*consumed` cell, returned unchanged on every error path (the
source returns before the `*consumed = ...` store).  `fuel` bounds the
number of iterations; each iteration consumes at least
`kMsgLengthPrefixLength` bytes, so any `fuel ≥ buf.length` is exact. -/
def processCallsLoop {σ : Type} (maxMsg : Nat) (handle : σ → List Nat → σ × Option RpcErrorKind) :
    Nat → σ → List Nat → Nat → Nat → PCResult σ
  | 0, st, _, done, _ => ⟨st, done, none⟩
  | fuel + 1, st, buf, done, consumedCell =>
    if kMsgLengthPrefixLength ≤ buf.length then
      if maxMsg < load32 buf + kMsgLengthPrefixLength then
        ⟨st, consumedCell, some RpcErrorKind.networkError⟩
      else if buf.length < load32 buf + kMsgLengthPrefixLength then
        ⟨st, done, none⟩
      else
        let r := handle st ((buf.drop kMsgLengthPrefixLength).take (load32 buf))
        if r.2.isSome then
          ⟨r.1, consumedCell, r.2⟩
        else
          processCallsLoop maxMsg handle fuel r.1
            (buf.drop (load32 buf + kMsgLengthPrefixLength))
            (done + (load32 buf + kMsgLengthPrefixLength)) consumedCell
    else
      ⟨st, done, none⟩

/-- `YBConnectionContext::ProcessCalls(connection, slice, consumed)`.
`buf.length` iterations of fuel always suffice. -/
def processCalls {σ : Type} (maxMsg : Nat) (handle : σ → List Nat → σ × Option RpcErrorKind)
    (st : σ) (buf : List Nat) (consumedCell : Nat) : PCResult σ :=
  processCallsLoop maxMsg handle buf.length st buf 0 consumedCell

/-- `HandleCall` state after successfully handling each payload in order
(folding the state mutations of the handler). -/
def foldHandle {σ : Type} (handle : σ → List Nat → σ × Option RpcErrorKind)
    (st : σ) : List (List Nat) → σ
  | [] => st
  | p :: ps => foldHandle handle (handle st p).1 ps

/-- Total wire size of a list of payloads: 4 length-field bytes plus the
payload length, per frame. -/
def sumFrameSizes (payloads : List (List Nat)) : Nat :=
  (payloads.map (fun p => kMsgLengthPrefixLength + p.length)).sum

/-- The `RemoteMethodPB` protobuf as seen by this code: only its
`IsInitialized()` bit (all required fields set) matters here. -/
structure RemoteMethodPB where
  initialized : Bool
  deriving DecidableEq, Repr

/-- The `RequestHeader` protobuf fields read by this slice: `call_id`,
optional `remote_method`, optional `timeout_millis`. -/
structure RequestHeader where
  call_id : Nat
  remote_method : Option RemoteMethodPB
  timeout_millis : Option Nat
  deriving DecidableEq, Repr

/-- `YBInboundCall::ParseFrom`.  `serialization::ParseYBMessage` is not
part of this slice and is taken as a parameter `parseYB` returning the
parsed request header and serialized request body; after a successful
parse the source rejects a header with no `remote_method` and a
`remote_method` whose required fields are uninitialized, both with
`Corruption`. -/
def parseFrom (parseYB : List Nat → Except RpcErrorKind (RequestHeader × List Nat))
    (source : List Nat) : Except RpcErrorKind (RequestHeader × List Nat) :=
  match parseYB source with
  | .error e => .error e
  | .ok (hdr, ser) =>
    match hdr.remote_method with
    | none => .error RpcErrorKind.corruption
    | some rm =>
      if rm.initialized then .ok (hdr, ser) else .error RpcErrorKind.corruption

/-- State touched by `YBConnectionContext::HandleInboundCall`:
`calls_being_handled_` maps call ids to call object identities, and
`queuedCalls` records the calls handed to
`messenger()->QueueInboundCall` in order. -/
structure ServerCtxState where
  callsBeingHandled : List (Nat × Nat)
  queuedCalls : List Nat
  deriving DecidableEq, Repr

/-- `InsertIfNotPresent` on the `calls_being_handled_` map: returns
`none` (and leaves the map unchanged) when the key is already present,
otherwise the map with the new entry. -/
def insertIfNotPresent (m : List (Nat × Nat)) (k v : Nat) : Option (List (Nat × Nat)) :=
  match m.lookup k with
  | some _ => none
  | none => some ((k, v) :: m)

/-- `YBConnectionContext::HandleInboundCall`: allocate the call object
(`newCall` is its identity), `ParseFrom` the data (failure propagates),
insert into `calls_being_handled_` keyed by the parsed `call_id`
(duplicate id → warn and return `NetworkError`), then queue the call to
the messenger and return OK. -/
def handleInboundCall (parseYB : List Nat → Except RpcErrorKind (RequestHeader × List Nat))
    (st : ServerCtxState) (newCall : Nat) (callData : List Nat) :
    ServerCtxState × Option RpcErrorKind :=
  match parseFrom parseYB callData with
  | .error e => (st, some e)
  | .ok (hdr, _) =>
    match insertIfNotPresent st.callsBeingHandled hdr.call_id newCall with
    | none => (st, some RpcErrorKind.networkError)
    | some m => (⟨m, st.queuedCalls ++ [newCall]⟩, none)

/-- The fields of a `YBInboundCall` used by response serialization:
`header_` (as parsed from the request), `timing_.time_received`
(nanoseconds), and `sidecars_`. -/
structure YBInboundCallState where
  header : RequestHeader
  timeReceived : Nat
  sidecars : List (List Nat)
  deriving DecidableEq, Repr

/-- The `ResponseHeader` protobuf fields set by
`YBInboundCall::SerializeResponseBuffer`. -/
structure ResponseHeader where
  call_id : Nat
  is_error : Bool
  sidecar_offsets : List Nat
  deriving DecidableEq, Repr

/-- The `sidecar_offsets` loop of `SerializeResponseBuffer`:
`uint32_t absolute_sidecar_offset` starts at the serialized response
body size and advances past each sidecar.  The accumulator is a 32-bit
unsigned variable, so the addition `absolute_sidecar_offset +=
car.size()` wraps modulo 2^32; `off` here is the current value of that
variable (callers pass it already reduced). -/
def sidecarOffsetsFrom (off : Nat) : List (List Nat) → List Nat
  | [] => []
  | car :: cars => off :: sidecarOffsetsFrom ((off + car.length) % 4294967296) cars

/-- Header-construction part of `YBInboundCall::SerializeResponseBuffer`:
`call_id` is copied from the request header, `is_error = !is_success`,
and the sidecar offsets are measured from the start of the message body
(`uint32_t absolute_sidecar_offset` starts at `protobuf_msg_size`, the
value of `response.ByteSize()` in a 32-bit variable, hence the
reduction).  `msgSize` is `response.ByteSize()`; the actual byte
assembly is done by the external
`serialization::SerializeHeader`/`SerializeMessage`. -/
def serializeResponseBuffer (call : YBInboundCallState) (msgSize : Nat)
    (isSuccess : Bool) : ResponseHeader :=
  ⟨call.header.call_id, !isSuccess,
    sidecarOffsetsFrom (msgSize % 4294967296) call.sidecars⟩

/-- `YBInboundCall::Serialize`: push `response_buf_` onto the output
deque, then each sidecar in order. -/
def serialize (responseBuf : List Nat) (sidecars : List (List Nat))
    (output : List (List Nat)) : List (List Nat) :=
  sidecars.foldl (fun q car => q ++ [car]) (output ++ [responseBuf])

/-- `YBConnectionContext::Idle`: returns `calls_being_handled_.empty()`. -/
def ybConnectionContextIdle (callsBeingHandled : List (Nat × Nat)) : Bool :=
  callsBeingHandled.isEmpty

/-- The connection-level state named by the spec's `is_idle` sentence:
the client map `calls_awaiting_response` and the `outbound_queue` live on
the `Connection` object, `calls_being_handled_` on the
`YBConnectionContext`. -/
structure ConnectionState where
  callsAwaitingResponse : List (Nat × Nat)
  callsBeingHandled : List (Nat × Nat)
  outboundQueue : List (List Nat)
  deriving DecidableEq, Repr

/-- A `MonoTime`: either `MonoTime::Max()` or a finite time in
nanoseconds. -/
inductive MonoTimeModel where
  | maxTime
  | time (nanos : Nat)
  deriving DecidableEq, Repr

/-- `YBInboundCall::GetClientDeadline`: `MonoTime::Max()` when the header
has no `timeout_millis` or it is zero, otherwise
`timing_.time_received + MonoDelta::FromMilliseconds(timeout_millis)`
(a millisecond is 1000000 nanoseconds). -/
def getClientDeadline (header : RequestHeader) (timeReceived : Nat) : MonoTimeModel :=
  if header.timeout_millis.isNone || header.timeout_millis.getD 0 == 0 then
    MonoTimeModel.maxTime
  else
    MonoTimeModel.time (timeReceived + header.timeout_millis.getD 0 * 1000000)

/-- Modelled from the spec: the bodies of `DelayedTask::TimerHandler`,
`DelayedTask::AbortTask` and `DelayedTask::MarkAsDone` live in
reactor.cc, which is not part of this slice; `reactor.h` declares the
`done_` flag ("Set to true whenever a Run or Abort methods are called",
guarded by `lock_`).  An event is either the timer firing or an abort
call. -/
inductive DelayedEvent where
  | timerFire
  | abortTask
  deriving DecidableEq, Repr

/-- Modelled from the spec: the status argument passed to `func_` —
`true` stands for `Status::OK` (timer path), `false` for the abort
status passed on the abort path. -/
def eventStatusOk : DelayedEvent → Bool
  | DelayedEvent.timerFire => true
  | DelayedEvent.abortTask => false

/-- Modelled from the spec: the `done_` flag of a `DelayedTask` together
with the history of `func_` invocations (by the status they carried). -/
structure DelayedTaskState where
  done : Bool
  invocations : List Bool
  deriving DecidableEq, Repr

/-- Modelled from the spec: one `MarkAsDone`-guarded event.  Per the
spec's delayed-task contract, the winner of the race on `done_` sets it
and invokes `func_` once; the loser sees `done_` already set and is a
no-op. -/
def delayedTaskStep (st : DelayedTaskState) (e : DelayedEvent) : DelayedTaskState :=
  if st.done then st
  else ⟨true, st.invocations ++ [eventStatusOk e]⟩

/-- Modelled from the spec: a complete run of a `DelayedTask`, given the
events that reach it in the order the per-task spinlock serializes them;
an arbitrary event list covers every interleaving of the timer-fire path
with aborts from other threads. -/
def delayedTaskRun (events : List DelayedEvent) : DelayedTaskState :=
  events.foldl delayedTaskStep ⟨false, []⟩

/-- Decoding the length field recovers the encoded value (32-bit). -/
lemma load32_encodeLen32 (n : Nat) (rest : List Nat) (h : n < 4294967296) :
    load32 (encodeLen32 n ++ rest) = n := by
  simp [load32, encodeLen32]
  omega

/-- A buffer holding no complete frame (fewer than 4 bytes, or a
within-limit length field announcing more bytes than are present) makes
the loop stop with OK and `*consumed = done`. -/
lemma processCallsLoop_incomplete {σ : Type} (maxMsg : Nat)
    (handle : σ → List Nat → σ × Option RpcErrorKind)
    (fuel : Nat) (st : σ) (trailing : List Nat) (done c : Nat)
    (h : trailing.length < 4 ∨
      (load32 trailing + 4 ≤ maxMsg ∧ trailing.length < load32 trailing + 4)) :
    processCallsLoop maxMsg handle fuel st trailing done c = ⟨st, done, none⟩ := by
  cases fuel with
  | zero => rfl
  | succ f =>
    simp only [processCallsLoop, kMsgLengthPrefixLength]
    by_cases h4 : 4 ≤ trailing.length
    · rcases h with h | ⟨hmax, hstop⟩
      · omega
      · rw [if_pos h4, if_neg (by omega), if_pos hstop]
    · rw [if_neg h4]

/-- A length field exceeding the limit makes the loop fail with
`NetworkError` immediately, leaving state and the `*consumed` cell
untouched. -/
lemma processCallsLoop_oversize {σ : Type} (maxMsg : Nat)
    (handle : σ → List Nat → σ × Option RpcErrorKind)
    (fuel : Nat) (st : σ) (buf : List Nat) (done c : Nat)
    (h4 : 4 ≤ buf.length) (hbig : maxMsg < load32 buf + 4) (hfuel : 1 ≤ fuel) :
    processCallsLoop maxMsg handle fuel st buf done c
      = ⟨st, c, some RpcErrorKind.networkError⟩ := by
  cases fuel with
  | zero => omega
  | succ f =>
    simp only [processCallsLoop, kMsgLengthPrefixLength]
    rw [if_pos h4, if_pos hbig]

/-- One complete, within-limit frame whose call handles successfully:
the loop advances past it. -/
lemma processCallsLoop_goodFrame {σ : Type} (maxMsg : Nat)
    (handle : σ → List Nat → σ × Option RpcErrorKind)
    (fuel : Nat) (st : σ) (p rest : List Nat) (done c : Nat)
    (hsize : p.length + 4 ≤ maxMsg) (hmax : maxMsg < 4294967296)
    (hok : (handle st p).2 = none) :
    processCallsLoop maxMsg handle (fuel + 1) st (encodeFrame p ++ rest) done c
      = processCallsLoop maxMsg handle fuel (handle st p).1 rest
          (done + (p.length + 4)) c := by
  have hlt : p.length < 4294967296 := by omega
  have hload : load32 (encodeFrame p ++ rest) = p.length := by
    rw [encodeFrame, List.append_assoc]
    exact load32_encodeLen32 _ _ hlt
  have hlen : (encodeFrame p ++ rest).length = 4 + p.length + rest.length := by
    simp [encodeFrame, encodeLen32]
    omega
  have hdrop : (encodeFrame p ++ rest).drop 4 = p ++ rest := by
    rw [encodeFrame, List.append_assoc]
    have h : (4 : Nat) = (encodeLen32 p.length).length := rfl
    rw [h, List.drop_left]
  have htake : ((encodeFrame p ++ rest).drop 4).take p.length = p := by
    rw [hdrop, List.take_left]
  have hdropAll : (encodeFrame p ++ rest).drop (p.length + 4) = rest := by
    rw [encodeFrame]
    have h : p.length + 4 = (encodeLen32 p.length ++ p).length := by
      simp [encodeLen32]
    rw [h, List.drop_left]
  simp only [processCallsLoop, kMsgLengthPrefixLength, hload]
  rw [if_pos (by omega), if_neg (by omega), if_neg (by omega)]
  simp only [htake, hok, Option.isSome_none, Bool.false_eq_true, if_false, hdropAll]

/-- A run of complete, within-limit, successfully handled frames: the
loop folds the handler over them, advancing `done` by their total wire
size and spending one unit of fuel per frame. -/
lemma processCallsLoop_goodFrames {σ : Type} (maxMsg : Nat)
    (handle : σ → List Nat → σ × Option RpcErrorKind) (hmax : maxMsg < 4294967296) :
    ∀ (pre : List (List Nat)) (fuel : Nat) (st : σ) (tail : List Nat) (done c : Nat),
    (∀ p ∈ pre, p.length + 4 ≤ maxMsg ∧ ∀ s, (handle s p).2 = none) →
    (encodeFrames pre ++ tail).length ≤ fuel →
    processCallsLoop maxMsg handle fuel st (encodeFrames pre ++ tail) done c
      = processCallsLoop maxMsg handle (fuel - pre.length) (foldHandle handle st pre)
          tail (done + sumFrameSizes pre) c := by
  intro pre
  induction pre with
  | nil =>
    intro fuel st tail done c _ _
    simp [encodeFrames, foldHandle, sumFrameSizes]
  | cons p ps ih =>
    intro fuel st tail done c hpre hfuel
    have hlen : (encodeFrames (p :: ps) ++ tail).length
        = 4 + p.length + ((encodeFrames ps ++ tail).length) := by
      simp [encodeFrames, encodeFrame, encodeLen32]
      omega
    cases fuel with
    | zero => omega
    | succ f =>
      have hassoc : encodeFrames (p :: ps) ++ tail
          = encodeFrame p ++ (encodeFrames ps ++ tail) := by
        simp [encodeFrames]
      rw [hassoc]
      rw [processCallsLoop_goodFrame maxMsg handle f st p (encodeFrames ps ++ tail)
        done c (hpre p (List.mem_cons_self p ps)).1 hmax
        ((hpre p (List.mem_cons_self p ps)).2 st)]
      rw [ih f (handle st p).1 tail (done + (p.length + 4)) c
        (fun q hq => hpre q (List.mem_cons_of_mem p hq)) (by omega)]
      have h1 : f - ps.length = f + 1 - (p :: ps).length := by
        simp only [List.length_cons]
        omega
      have h2 : done + (p.length + 4) + sumFrameSizes ps
          = done + sumFrameSizes (p :: ps) := by
        simp [sumFrameSizes, kMsgLengthPrefixLength]
        omega
      rw [h1, h2]
      rfl

/-- Wire length of a frame sequence. -/
lemma encodeFrames_length (pre : List (List Nat)) :
    (encodeFrames pre).length = sumFrameSizes pre := by
  induction pre with
  | nil => simp [encodeFrames, sumFrameSizes]
  | cons p ps ih =>
    simp [encodeFrames, encodeFrame, encodeLen32, sumFrameSizes,
      kMsgLengthPrefixLength] at ih ⊢
    omega

/-- Each frame takes at least one byte of wire size per list entry. -/
lemma sumFrameSizes_ge (pre : List (List Nat)) : pre.length ≤ sumFrameSizes pre := by
  induction pre with
  | nil => simp [sumFrameSizes]
  | cons p ps ih =>
    simp [sumFrameSizes, kMsgLengthPrefixLength] at ih ⊢
    omega

/-- A complete, within-limit frame whose call fails: the loop returns
the handler's error, keeps the handler's state mutation, and leaves the
`*consumed` cell untouched. -/
lemma processCallsLoop_badFrame {σ : Type} (maxMsg : Nat)
    (handle : σ → List Nat → σ × Option RpcErrorKind)
    (fuel : Nat) (st : σ) (bad rest : List Nat) (done c : Nat) (e : RpcErrorKind)
    (hsize : bad.length + 4 ≤ maxMsg) (hmax : maxMsg < 4294967296)
    (hbad : (handle st bad).2 = some e) (hfuel : 1 ≤ fuel) :
    processCallsLoop maxMsg handle fuel st (encodeFrame bad ++ rest) done c
      = ⟨(handle st bad).1, c, some e⟩ := by
  cases fuel with
  | zero => omega
  | succ f =>
    have hlt : bad.length < 4294967296 := by omega
    have hload : load32 (encodeFrame bad ++ rest) = bad.length := by
      rw [encodeFrame, List.append_assoc]
      exact load32_encodeLen32 _ _ hlt
    have hlen : (encodeFrame bad ++ rest).length = 4 + bad.length + rest.length := by
      simp [encodeFrame, encodeLen32]
      omega
    have hdrop : (encodeFrame bad ++ rest).drop 4 = bad ++ rest := by
      rw [encodeFrame, List.append_assoc]
      have h : (4 : Nat) = (encodeLen32 bad.length).length := rfl
      rw [h, List.drop_left]
    have htake : ((encodeFrame bad ++ rest).drop 4).take bad.length = bad := by
      rw [hdrop, List.take_left]
    simp only [processCallsLoop, kMsgLengthPrefixLength, hload]
    rw [if_pos (by omega), if_neg (by omega), if_neg (by omega)]
    simp only [htake, hbad, Option.isSome_some, if_true]

/-- Element `i` of the offsets built by the `sidecar_offsets` loop is the
starting offset plus the sizes of the earlier sidecars, reduced modulo
2^32 by the `uint32_t` accumulator. -/
lemma sidecarOffsetsFrom_get (cars : List (List Nat)) :
    ∀ (off i : Nat), i < cars.length →
    (sidecarOffsetsFrom (off % 4294967296) cars)[i]?
      = some ((off + ((cars.take i).map List.length).sum) % 4294967296) := by
  induction cars with
  | nil =>
    intro off i hi
    simp at hi
  | cons car cars ih =>
    intro off i hi
    cases i with
    | zero => simp [sidecarOffsetsFrom]
    | succ j =>
      simp only [sidecarOffsetsFrom, List.getElem?_cons_succ, List.take_succ_cons,
        List.map_cons, List.sum_cons]
      have hacc : (off % 4294967296 + car.length) % 4294967296
          = (off + car.length) % 4294967296 := by omega
      rw [hacc, ih (off + car.length) j (by simpa using hi)]
      have h : (off + car.length + ((cars.take j).map List.length).sum) % 4294967296
          = (off + (car.length + ((cars.take j).map List.length).sum)) % 4294967296 := by
        omega
      rw [h]

/-- Folding `push_back` over a deque appends the pushed elements. -/
lemma foldl_append_singleton (l : List (List Nat)) :
    ∀ q : List (List Nat), l.foldl (fun q car => q ++ [car]) q = q ++ l := by
  induction l with
  | nil => intro q; simp
  | cons x xs ih =>
    intro q
    simp only [List.foldl_cons]
    rw [ih]
    simp

/-- Once `done_` is set, every further event is a no-op. -/
lemma delayedTaskRun_done (l : List DelayedEvent) :
    ∀ st : DelayedTaskState, st.done = true → l.foldl delayedTaskStep st = st := by
  induction l with
  | nil => intro st _; rfl
  | cons e rest ih =>
    intro st h
    simp only [List.foldl_cons, delayedTaskStep, h, if_true]
    exact ih st h

/-- C1: if the 4-byte big-endian length field of the frame at the front
of the buffer declares a total payload length whose frame total exceeds
`rpc_max_message_size`, `ProcessCalls` returns `NetworkError` as soon as
the length field is read — for an arbitrary remainder of the buffer, in
particular when the rest of the frame has not arrived — without invoking
`HandleCall` (the state is unchanged) and without writing `*consumed`. -/
theorem processCalls_oversized_length_networkError {σ : Type} (maxMsg : Nat)
    (handle : σ → List Nat → σ × Option RpcErrorKind) (st : σ)
    (b0 b1 b2 b3 : Nat) (rest : List Nat) (c : Nat)
    (hbig : maxMsg < load32 (b0 :: b1 :: b2 :: b3 :: rest) + 4) :
    processCalls maxMsg handle st (b0 :: b1 :: b2 :: b3 :: rest) c
      = ⟨st, c, some RpcErrorKind.networkError⟩ := by
  unfold processCalls
  apply processCallsLoop_oversize maxMsg handle _ st _ 0 c _ hbig
  · simp only [List.length_cons]
    omega
  · simp only [List.length_cons]
    omega

/-- Witness for C1: the spec's boundary scenario, a bare 4-byte prefix
`0x00800001` (8 MiB + 1) with no further bytes, against the default
8 MiB limit. -/
theorem processCalls_oversized_length_networkError_witness :
    FLAGS_rpc_max_message_size < load32 (0 :: 128 :: 0 :: 1 :: []) + 4 ∧
    processCalls FLAGS_rpc_max_message_size (fun (s : Nat) _ => (s, none)) 0
        (0 :: 128 :: 0 :: 1 :: []) 7
      = ⟨0, 7, some RpcErrorKind.networkError⟩ :=
  ⟨by decide, processCalls_oversized_length_networkError _ _ _ _ _ _ _ _ _ (by decide)⟩

/-- C2: on a buffer made of complete, within-limit frames (all of whose
calls handle successfully) followed by an incomplete trailing frame —
including a trailer shorter than the 4-byte length field —
`ProcessCalls` returns OK and sets `*consumed` to the sum of
`4 + data_length` over the complete leading frames, leaving the trailing
bytes unconsumed. -/
theorem processCalls_consumes_complete_frames {σ : Type} (maxMsg : Nat)
    (handle : σ → List Nat → σ × Option RpcErrorKind) (st : σ)
    (payloads : List (List Nat)) (trailing : List Nat) (c : Nat)
    (hmax : maxMsg < 4294967296)
    (hsize : ∀ p ∈ payloads, p.length + 4 ≤ maxMsg)
    (hok : ∀ (s : σ) (d : List Nat), (handle s d).2 = none)
    (htrail : trailing.length < 4 ∨
      (load32 trailing + 4 ≤ maxMsg ∧ trailing.length < load32 trailing + 4)) :
    (processCalls maxMsg handle st (encodeFrames payloads ++ trailing) c).error = none ∧
    (processCalls maxMsg handle st (encodeFrames payloads ++ trailing) c).consumed
      = sumFrameSizes payloads := by
  unfold processCalls
  rw [processCallsLoop_goodFrames maxMsg handle hmax payloads _ st trailing 0 c
    (fun p hp => ⟨hsize p hp, fun s => hok s p⟩) (le_refl _)]
  rw [processCallsLoop_incomplete _ _ _ _ _ _ _ htrail]
  simp

/-- Witness for C2: two complete frames (payload sizes 1 and 2) followed
by a 2-byte partial prefix; `*consumed` becomes their total wire size. -/
theorem processCalls_consumes_complete_frames_witness :
    (processCalls FLAGS_rpc_max_message_size (fun (s : Nat) _ => (s + 1, none)) 0
        (encodeFrames [[5], [6, 7]] ++ [0, 0]) 7).error = none ∧
    (processCalls FLAGS_rpc_max_message_size (fun (s : Nat) _ => (s + 1, none)) 0
        (encodeFrames [[5], [6, 7]] ++ [0, 0]) 7).consumed
      = sumFrameSizes [[5], [6, 7]] :=
  processCalls_consumes_complete_frames _ _ _ _ _ _ (by decide) (by decide)
    (fun _ _ => rfl) (by decide)

/-- C10: when `ProcessCalls` returns an error — either `HandleCall`
failing on the frame after `i - 1` successfully handled frames, or an
oversized length field reached after them — the `*consumed` cell keeps
its old value (it is never written on the error paths) and the effects
of the already-handled frames persist in the connection state (the
result state is the handler fold over them; nothing is undone). -/
theorem processCalls_error_leaves_consumed_unwritten {σ : Type} (maxMsg : Nat)
    (handle : σ → List Nat → σ × Option RpcErrorKind) (st : σ)
    (pre : List (List Nat)) (c : Nat)
    (hmax : maxMsg < 4294967296)
    (hpre : ∀ p ∈ pre, p.length + 4 ≤ maxMsg ∧ ∀ s, (handle s p).2 = none) :
    (∀ (bad rest : List Nat) (e : RpcErrorKind),
      bad.length + 4 ≤ maxMsg →
      (handle (foldHandle handle st pre) bad).2 = some e →
      processCalls maxMsg handle st (encodeFrames pre ++ (encodeFrame bad ++ rest)) c
        = ⟨(handle (foldHandle handle st pre) bad).1, c, some e⟩) ∧
    (∀ over : List Nat, 4 ≤ over.length → maxMsg < load32 over + 4 →
      processCalls maxMsg handle st (encodeFrames pre ++ over) c
        = ⟨foldHandle handle st pre, c, some RpcErrorKind.networkError⟩) := by
  have hge := sumFrameSizes_ge pre
  constructor
  · intro bad rest e hsize hbad
    unfold processCalls
    rw [processCallsLoop_goodFrames maxMsg handle hmax pre _ st _ 0 c hpre (le_refl _)]
    apply processCallsLoop_badFrame maxMsg handle _ _ bad rest _ c e hsize hmax hbad
    have hlen : (encodeFrames pre ++ (encodeFrame bad ++ rest)).length
        = sumFrameSizes pre + (4 + bad.length + rest.length) := by
      simp [List.length_append, encodeFrames_length, encodeFrame, encodeLen32]
      omega
    omega
  · intro over h4 hbig
    unfold processCalls
    rw [processCallsLoop_goodFrames maxMsg handle hmax pre _ st _ 0 c hpre (le_refl _)]
    apply processCallsLoop_oversize maxMsg handle _ _ over _ c h4 hbig
    have hlen : (encodeFrames pre ++ over).length
        = sumFrameSizes pre + over.length := by
      simp [List.length_append, encodeFrames_length]
    omega

/-- Witness for C10: one frame handled successfully (state counter
advances to 1), then a frame whose call fails with `Corruption`; the
result keeps the first frame's effect (counter 2 after the failing
handler also ran), the error, and the untouched `*consumed` cell 7. -/
theorem processCalls_error_leaves_consumed_unwritten_witness :
    processCalls 8388608
        (fun (s : Nat) d => if d = [9] then (s + 1, some RpcErrorKind.corruption)
          else (s + 1, none)) 0
        (encodeFrames [[1]] ++ (encodeFrame [9] ++ [0])) 7
      = ⟨2, 7, some RpcErrorKind.corruption⟩ := by
  have h := (processCalls_error_leaves_consumed_unwritten 8388608
    (fun (s : Nat) d => if d = [9] then (s + 1, some RpcErrorKind.corruption)
      else (s + 1, none)) 0 [[1]] 7 (by decide)
    (by
      intro p hp
      simp only [List.mem_singleton] at hp
      subst hp
      exact ⟨by decide, fun s => rfl⟩)).1 [9] [0] RpcErrorKind.corruption
    (by decide) rfl
  exact h

/-- C5: after `ParseYBMessage` succeeds, `YBInboundCall::ParseFrom`
returns `Corruption` when the parsed request header has no
`remote_method` or its `remote_method` has uninitialized required
fields, and returns OK (with the parsed header and body) otherwise. -/
theorem parseFrom_corruption_conditions
    (parseYB : List Nat → Except RpcErrorKind (RequestHeader × List Nat))
    (source : List Nat) (hdr : RequestHeader) (ser : List Nat)
    (hparse : parseYB source = .ok (hdr, ser)) :
    (hdr.remote_method = none →
      parseFrom parseYB source = .error RpcErrorKind.corruption) ∧
    (∀ rm, hdr.remote_method = some rm → rm.initialized = false →
      parseFrom parseYB source = .error RpcErrorKind.corruption) ∧
    (∀ rm, hdr.remote_method = some rm → rm.initialized = true →
      parseFrom parseYB source = .ok (hdr, ser)) := by
  refine ⟨?_, ?_, ?_⟩
  · intro h
    simp [parseFrom, hparse, h]
  · intro rm h hini
    simp [parseFrom, hparse, h, hini]
  · intro rm h hini
    simp [parseFrom, hparse, h, hini]

/-- Witness for C5: an initialized `remote_method` parses OK; a missing
one and an uninitialized one both yield `Corruption`. -/
theorem parseFrom_corruption_conditions_witness :
    parseFrom (fun _ => Except.ok ((⟨7, some ⟨true⟩, none⟩ : RequestHeader), [1])) [3]
      = Except.ok ((⟨7, some ⟨true⟩, none⟩ : RequestHeader), [1]) ∧
    parseFrom (fun _ => Except.ok ((⟨8, none, none⟩ : RequestHeader), [])) [3]
      = Except.error RpcErrorKind.corruption ∧
    parseFrom (fun _ => Except.ok ((⟨9, some ⟨false⟩, none⟩ : RequestHeader), [])) [3]
      = Except.error RpcErrorKind.corruption :=
  ⟨(parseFrom_corruption_conditions _ _ _ _ rfl).2.2 ⟨true⟩ rfl rfl,
   (parseFrom_corruption_conditions _ _ _ _ rfl).1 rfl,
   (parseFrom_corruption_conditions _ _ _ _ rfl).2.1 ⟨false⟩ rfl rfl⟩

/-- C3: when `calls_being_handled_` already holds an entry for call id
`k`, `HandleInboundCall` on a second parseable request with
`call_id = k` returns `NetworkError`, leaves the whole state unchanged —
in particular the first call's map entry survives and nothing is queued
to the messenger. -/
theorem handleInboundCall_duplicate_id_networkError
    (parseYB : List Nat → Except RpcErrorKind (RequestHeader × List Nat))
    (st : ServerCtxState) (newCall : Nat) (callData : List Nat)
    (hdr : RequestHeader) (ser : List Nat) (k v : Nat)
    (hdup : st.callsBeingHandled.lookup k = some v)
    (hparse : parseFrom parseYB callData = .ok (hdr, ser))
    (hid : hdr.call_id = k) :
    handleInboundCall parseYB st newCall callData
      = (st, some RpcErrorKind.networkError) ∧
    (handleInboundCall parseYB st newCall callData).1.callsBeingHandled.lookup k
      = some v ∧
    (handleInboundCall parseYB st newCall callData).1.queuedCalls = st.queuedCalls := by
  have h : handleInboundCall parseYB st newCall callData
      = (st, some RpcErrorKind.networkError) := by
    unfold handleInboundCall
    rw [hparse]
    simp only [insertIfNotPresent, hid, hdup]
  exact ⟨h, by rw [h]; exact hdup, by rw [h]⟩

/-- Witness for C3: the spec's duplicate-call-id scenario with
`call_id = 42`: call object 1 is in the map and stays there, call
object 2 is rejected with `NetworkError` and never queued. -/
theorem handleInboundCall_duplicate_id_networkError_witness :
    handleInboundCall
        (fun _ => Except.ok ((⟨42, some ⟨true⟩, none⟩ : RequestHeader), []))
        ⟨[(42, 1)], [1]⟩ 2 []
      = (⟨[(42, 1)], [1]⟩, some RpcErrorKind.networkError) ∧
    (handleInboundCall
        (fun _ => Except.ok ((⟨42, some ⟨true⟩, none⟩ : RequestHeader), []))
        ⟨[(42, 1)], [1]⟩ 2 []).1.callsBeingHandled.lookup 42 = some 1 ∧
    (handleInboundCall
        (fun _ => Except.ok ((⟨42, some ⟨true⟩, none⟩ : RequestHeader), []))
        ⟨[(42, 1)], [1]⟩ 2 []).1.queuedCalls = [1] :=
  handleInboundCall_duplicate_id_networkError _ _ 2 [] _ [] 42 1 rfl rfl rfl

/-- Counterexample for C4: the `absolute_sidecar_offset` accumulator is
a `uint32_t`, so with a body of size 10 followed by a sidecar of
4294967295 bytes, the offset recorded for the next sidecar is
(10 + 4294967295) mod 2^32 = 9, not the unbounded sum 4294967305 the
claim asserts. -/
theorem serializeResponseBuffer_offsets_wrap_counterexample :
    (serializeResponseBuffer
        ⟨⟨1, none, none⟩, 0, [List.replicate 4294967295 0, [0]]⟩ 10
        true).sidecar_offsets[1]?
      ≠ some (10 + (([List.replicate 4294967295 0, [0]].take 1).map List.length).sum) := by
  have hoff : sidecarOffsetsFrom (10 % 4294967296) [List.replicate 4294967295 0, [0]]
      = [10 % 4294967296, (10 % 4294967296 + 4294967295) % 4294967296] := by
    rw [sidecarOffsetsFrom, List.length_replicate, sidecarOffsetsFrom, sidecarOffsetsFrom]
  have hser : (serializeResponseBuffer
      ⟨⟨1, none, none⟩, 0, [List.replicate 4294967295 0, [0]]⟩ 10 true).sidecar_offsets
      = [10 % 4294967296, (10 % 4294967296 + 4294967295) % 4294967296] := by
    rw [serializeResponseBuffer]
    exact hoff
  have hsum : (([List.replicate 4294967295 0, [0]].take 1).map List.length).sum
      = 4294967295 := by
    rw [List.take_succ_cons, List.take_zero, List.map_cons, List.map_nil,
      List.length_replicate, List.sum_cons, List.sum_nil, Nat.add_zero]
  rw [hser, hsum]
  simp only [List.getElem?_cons_succ, List.getElem?_cons_zero, ne_eq, Option.some.injEq]
  decide

/-- C4 (amended): `SerializeResponseBuffer` records
`sidecar_offsets[i] = (body size + sum of the sizes of the sidecars
before i) mod 2^32` — offsets measured from the start of the message
body, with no header or length-field contribution, reduced by the
32-bit accumulator — and `Serialize` appends the raw sidecars after the
response buffer in their original order. -/
theorem serializeResponseBuffer_sidecar_offsets (call : YBInboundCallState)
    (msgSize : Nat) (isSuccess : Bool) (i : Nat) (hi : i < call.sidecars.length) :
    (serializeResponseBuffer call msgSize isSuccess).sidecar_offsets[i]?
      = some ((msgSize + ((call.sidecars.take i).map List.length).sum) % 4294967296) ∧
    ∀ (responseBuf : List Nat) (output : List (List Nat)),
      serialize responseBuf call.sidecars output
        = output ++ responseBuf :: call.sidecars := by
  constructor
  · exact sidecarOffsetsFrom_get call.sidecars msgSize i hi
  · intro responseBuf output
    rw [serialize, foldl_append_singleton]
    simp

/-- Witness for C4: two sidecars of sizes 2 and 1 after a body of size
10: the second offset is (10 + 2) mod 2^32 = 12; `Serialize` emits the
response buffer then the sidecars. -/
theorem serializeResponseBuffer_sidecar_offsets_witness :
    (serializeResponseBuffer ⟨⟨1, none, none⟩, 0, [[1, 2], [3]]⟩ 10 true).sidecar_offsets[1]?
      = some ((10 + (([[1, 2], [3]].take 1).map List.length).sum) % 4294967296) ∧
    serialize [7] [[1, 2], [3]] [[0]] = [[0]] ++ [7] :: [[1, 2], [3]] :=
  ⟨(serializeResponseBuffer_sidecar_offsets ⟨⟨1, none, none⟩, 0, [[1, 2], [3]]⟩ 10 true 1
      (by decide)).1,
   (serializeResponseBuffer_sidecar_offsets ⟨⟨1, none, none⟩, 0, [[1, 2], [3]]⟩ 10 true 1
      (by decide)).2 [7] [[0]]⟩

/-- C6: the response header built by `SerializeResponseBuffer` carries
the `call_id` of the request header the call was parsed from, and its
`is_error` flag is set exactly when `is_success` is false. -/
theorem serializeResponseBuffer_call_id_is_error (call : YBInboundCallState)
    (msgSize : Nat) (isSuccess : Bool) :
    (serializeResponseBuffer call msgSize isSuccess).call_id = call.header.call_id ∧
    ((serializeResponseBuffer call msgSize isSuccess).is_error = true ↔
      isSuccess = false) := by
  constructor
  · rfl
  · cases isSuccess <;> simp [serializeResponseBuffer]

/-- Counterexample for C7: a connection state with an empty
`calls_being_handled_` map but a non-empty outbound queue is reported
idle by `YBConnectionContext::Idle`, so idleness is not equivalent to
"both call maps and the outbound queue are empty". -/
theorem ybIdle_counterexample :
    ybConnectionContextIdle
        (⟨[], [], [[0]]⟩ : ConnectionState).callsBeingHandled = true ∧
    (⟨[], [], [[0]]⟩ : ConnectionState).outboundQueue ≠ [] := by
  decide

/-- C7 (amended): `YBConnectionContext::Idle` returns true iff
`calls_being_handled_` is empty; the client call map and the outbound
queue are not consulted by this method. -/
theorem ybIdle_iff_calls_being_handled_empty (callsBeingHandled : List (Nat × Nat)) :
    ybConnectionContextIdle callsBeingHandled = true ↔ callsBeingHandled = [] := by
  simp [ybConnectionContextIdle, List.isEmpty_iff]

/-- C9: `GetClientDeadline` returns `MonoTime::Max()` (no deadline) when
the request header has no `timeout_millis` or it equals 0, and otherwise
`time_received` plus `timeout_millis` milliseconds. -/
theorem getClientDeadline_timeout_handling (header : RequestHeader) (timeReceived : Nat) :
    ((header.timeout_millis = none ∨ header.timeout_millis = some 0) →
      getClientDeadline header timeReceived = MonoTimeModel.maxTime) ∧
    (∀ t, header.timeout_millis = some t → t ≠ 0 →
      getClientDeadline header timeReceived
        = MonoTimeModel.time (timeReceived + t * 1000000)) := by
  constructor
  · rintro (h | h) <;> simp [getClientDeadline, h]
  · intro t ht hne
    simp [getClientDeadline, ht, hne]

/-- Witness for C9: no `timeout_millis` gives `MonoTime::Max()`; a 3 ms
timeout received at 5 ns gives a deadline of 5 + 3000000 ns. -/
theorem getClientDeadline_timeout_handling_witness :
    getClientDeadline ⟨1, none, none⟩ 5 = MonoTimeModel.maxTime ∧
    getClientDeadline ⟨1, none, some 3⟩ 5 = MonoTimeModel.time (5 + 3 * 1000000) :=
  ⟨(getClientDeadline_timeout_handling _ _).1 (Or.inl rfl),
   (getClientDeadline_timeout_handling _ _).2 3 rfl (by decide)⟩

/-- C8: for any nonempty serialization of the race between the timer
firing and aborts, `func_` is invoked exactly once, with OK exactly when
the timer fired before any abort; whichever event loses the race on
`done_` is a no-op. -/
theorem delayedTask_func_exactly_once (events : List DelayedEvent)
    (hne : events ≠ []) :
    (delayedTaskRun events).invocations.length = 1 ∧
    ((delayedTaskRun events).invocations = [true] ↔
      events.head? = some DelayedEvent.timerFire) ∧
    (∀ (st : DelayedTaskState) (e : DelayedEvent), st.done = true →
      delayedTaskStep st e = st) := by
  cases events with
  | nil => exact absurd rfl hne
  | cons e rest =>
    have hrun : delayedTaskRun (e :: rest) = ⟨true, [eventStatusOk e]⟩ := by
      unfold delayedTaskRun
      rw [List.foldl_cons]
      have hstep : delayedTaskStep ⟨false, []⟩ e = ⟨true, [eventStatusOk e]⟩ := rfl
      rw [hstep]
      exact delayedTaskRun_done rest _ rfl
    refine ⟨by rw [hrun]; rfl, ?_, ?_⟩
    · rw [hrun]
      cases e <;> simp [eventStatusOk]
    · intro st ev h
      simp [delayedTaskStep, h]

/-- Witness for C8: an abort racing ahead of the timer yields exactly one
invocation of `func_`. -/
theorem delayedTask_func_exactly_once_witness :
    (delayedTaskRun [DelayedEvent.abortTask, DelayedEvent.timerFire]).invocations.length
      = 1 :=
  (delayedTask_func_exactly_once _ (by decide)).1

end YbRpc
